import Mathlib

/-
  Verification development for the Lexee repository (frontend under
  src/frontend; the FastAPI backend described in the README is not part of
  src/, so the Credit Gate and Execution Gateway are modelled from spec.md).

  Shallow embedding conventions:
  * JavaScript numbers are modelled exactly as NaN, plus/minus infinity, or an
    exact rational value (IEEE rounding is irrelevant to the claims settled
    here, which only inspect small literals and NaN-ness).
  * String.prototype.trim and JSON whitespace are both modelled as the common
    four-character whitespace set (space, tab, LF, CR).
  * Thrown exceptions are modelled with Except.
-/

namespace Lexee

/-- Model of a JavaScript number: NaN, an infinity, or an exact finite value. -/
inductive JsNum where
  | nan
  | posInf
  | negInf
  | finite (q : ℚ)
deriving DecidableEq, Repr

/-- Model of the global isNaN test on an already-converted number. -/
def jsIsNaN : JsNum → Bool
  | .nan => true
  | _ => false

/-- Negation of a JavaScript number (used for a leading minus sign). -/
def jsNeg : JsNum → JsNum
  | .nan => .nan
  | .posInf => .negInf
  | .negInf => .posInf
  | .finite q => .finite (-q)

/-- Whitespace recognised by the model of trim / parseFloat / JSON. -/
def isWsChar (c : Char) : Bool :=
  c = ' ' || c = '\t' || c = '\n' || c = '\r'

/-- Drop leading and trailing whitespace from a character list. -/
def trimChars (cs : List Char) : List Char :=
  ((cs.dropWhile isWsChar).reverse.dropWhile isWsChar).reverse

/-- Model of JavaScript String.prototype.trim. -/
def jsTrim (s : String) : String :=
  String.mk (trimChars s.toList)

/-- Numeric value of a list of decimal digit characters, most significant first. -/
def digitsToNat (ds : List Char) : ℕ :=
  ds.foldl (fun a c => 10 * a + (c.toNat - 48)) 0

/-- Split a character list into its longest decimal-digit head and the rest. -/
def takeDigits (cs : List Char) : List Char × List Char :=
  (cs.takeWhile Char.isDigit, cs.dropWhile Char.isDigit)

/-- Apply an optional exponent part (e or E, optional sign, digits) to a value.
    If the digits of the exponent are missing, the exponent is not consumed,
    matching the longest-valid-prefix rule of JavaScript number grammars. -/
def applyExp (v : ℚ) (cs : List Char) : ℚ × List Char :=
  match cs with
  | c :: rest =>
    if c = 'e' ∨ c = 'E' then
      let (sgn, r2) : ℤ × List Char :=
        match rest with
        | '+' :: t => (1, t)
        | '-' :: t => (-1, t)
        | _ => (1, rest)
      let (ed, r3) := takeDigits r2
      if ed = [] then (v, cs)
      else (v * (10 : ℚ) ^ (sgn * (digitsToNat ed : ℤ)), r3)
    else (v, cs)
  | [] => (v, cs)

/-- Longest unsigned decimal-literal value at the head of the input:
    digits, optional fraction, optional exponent; or a bare fraction. -/
def decUnsignedPref (cs : List Char) : Option (ℚ × List Char) :=
  let (ip, r1) := takeDigits cs
  if ip = [] then
    match r1 with
    | '.' :: r2 =>
      let (fp, r3) := takeDigits r2
      if fp = [] then none
      else some (applyExp ((digitsToNat fp : ℚ) / (10 : ℚ) ^ fp.length) r3)
    | _ => none
  else
    match r1 with
    | '.' :: r2 =>
      let (fp, r3) := takeDigits r2
      some (applyExp ((digitsToNat ip : ℚ) + (digitsToNat fp : ℚ) / (10 : ℚ) ^ fp.length) r3)
    | _ => some (applyExp ((digitsToNat ip : ℚ)) r1)

/-- Longest unsigned decimal literal or the word Infinity at the head. -/
def decOrInf (cs : List Char) : Option (JsNum × List Char) :=
  if cs.take 8 = "Infinity".toList then some (.posInf, cs.drop 8)
  else (decUnsignedPref cs).map (fun p => (.finite p.1, p.2))

/-- Longest signed decimal literal (or signed Infinity) at the head. -/
def decSignedPref (cs : List Char) : Option (JsNum × List Char) :=
  match cs with
  | '+' :: rest => decOrInf rest
  | '-' :: rest => (decOrInf rest).map (fun p => (jsNeg p.1, p.2))
  | _ => decOrInf cs

/-- Value of a hexadecimal digit, if any. -/
def hexVal (c : Char) : Option ℕ :=
  if '0' ≤ c ∧ c ≤ '9' then some (c.toNat - 48)
  else if 'a' ≤ c ∧ c ≤ 'f' then some (c.toNat - 87)
  else if 'A' ≤ c ∧ c ≤ 'F' then some (c.toNat - 55)
  else none

/-- Value of a digit bounded by a radix, if any. -/
def radixDigit (radix : ℕ) (c : Char) : Option ℕ :=
  match hexVal c with
  | some v => if v < radix then some v else none
  | none => none

/-- Interpret a whole character list in the given radix; none when empty or
    when a character is not a digit of the radix. -/
def radixNat (radix : ℕ) (cs : List Char) : Option ℕ :=
  match cs with
  | [] => none
  | _ =>
    cs.foldl
      (fun acc c =>
        match acc, radixDigit radix c with
        | some a, some v => some (radix * a + v)
        | _, _ => none)
      (some 0)

/-- Non-decimal integer literals accepted by Number(): 0x, 0o, 0b forms. -/
def nonDecimal (cs : List Char) : Option ℚ :=
  match cs with
  | '0' :: c :: rest =>
    if c = 'x' ∨ c = 'X' then (radixNat 16 rest).map (fun n => (n : ℚ))
    else if c = 'o' ∨ c = 'O' then (radixNat 8 rest).map (fun n => (n : ℚ))
    else if c = 'b' ∨ c = 'B' then (radixNat 2 rest).map (fun n => (n : ℚ))
    else none
  | _ => none

/-- Model of JavaScript Number(string): trim; empty becomes 0; otherwise the
    whole remaining string must be a numeric literal (decimal with optional
    sign and exponent, signed Infinity, or an unsigned 0x/0o/0b literal),
    else NaN. -/
def jsNumber (s : String) : JsNum :=
  let cs := trimChars s.toList
  if cs = [] then .finite 0
  else
    match nonDecimal cs with
    | some q => .finite q
    | none =>
      match decSignedPref cs with
      | some (v, []) => v
      | _ => .nan

/-- Model of JavaScript parseFloat(string): skip leading whitespace, read the
    longest signed decimal (or Infinity) prefix, NaN when there is none. -/
def jsParseFloat (s : String) : JsNum :=
  match decSignedPref (s.toList.dropWhile isWsChar) with
  | some (v, _) => v
  | none => .nan

/-- Structured data produced by JSON.parse: object, array, or scalar. -/
inductive Json where
  | null
  | bool (b : Bool)
  | num (q : ℚ)
  | str (s : String)
  | arr (xs : List Json)
  | obj (kvs : List (String × Json))

/-- Drop JSON whitespace (the same four characters as the trim model). -/
def jsonSkipWs (cs : List Char) : List Char := cs.dropWhile isWsChar

/-- Read the body of a JSON string after the opening quote, handling the JSON
    escape sequences; none on an unterminated string, a bad escape, or an
    unescaped control character. -/
def jsonStrChars : List Char → Option (List Char × List Char)
  | [] => none
  | '"' :: rest => some ([], rest)
  | '\\' :: rest =>
    match rest with
    | '"' :: r => (jsonStrChars r).map (fun p => ('"' :: p.1, p.2))
    | '\\' :: r => (jsonStrChars r).map (fun p => ('\\' :: p.1, p.2))
    | '/' :: r => (jsonStrChars r).map (fun p => ('/' :: p.1, p.2))
    | 'b' :: r => (jsonStrChars r).map (fun p => ('\x08' :: p.1, p.2))
    | 'f' :: r => (jsonStrChars r).map (fun p => ('\x0c' :: p.1, p.2))
    | 'n' :: r => (jsonStrChars r).map (fun p => ('\n' :: p.1, p.2))
    | 'r' :: r => (jsonStrChars r).map (fun p => ('\r' :: p.1, p.2))
    | 't' :: r => (jsonStrChars r).map (fun p => ('\t' :: p.1, p.2))
    | 'u' :: a :: b :: c :: d :: r =>
      match hexVal a, hexVal b, hexVal c, hexVal d with
      | some x1, some x2, some x3, some x4 =>
        (jsonStrChars r).map
          (fun p => (Char.ofNat (4096 * x1 + 256 * x2 + 16 * x3 + x4) :: p.1, p.2))
      | _, _, _, _ => none
    | _ => none
  | c :: rest =>
    if c.toNat < 32 then none
    else (jsonStrChars rest).map (fun p => (c :: p.1, p.2))

/-- JSON exponent part: when an e or E is present its digits are mandatory,
    unlike the longest-prefix rule of parseFloat. -/
def jsonExpStrict (v : ℚ) (cs : List Char) : Option (ℚ × List Char) :=
  match cs with
  | c :: rest =>
    if c = 'e' ∨ c = 'E' then
      let (sgn, r2) : ℤ × List Char :=
        match rest with
        | '+' :: t => (1, t)
        | '-' :: t => (-1, t)
        | _ => (1, rest)
      let (ed, r3) := takeDigits r2
      if ed = [] then none
      else some (v * (10 : ℚ) ^ (sgn * (digitsToNat ed : ℤ)), r3)
    else some (v, cs)
  | [] => some (v, cs)

/-- JSON number at the head of the input: optional minus, an integer part with
    no leading zero, optional fraction (with at least one digit), optional
    exponent (with at least one digit). -/
def jsonNumPref (cs : List Char) : Option (ℚ × List Char) :=
  let (neg, cs1) : Bool × List Char :=
    match cs with
    | '-' :: t => (true, t)
    | other => (false, other)
  let (ds, r1) := takeDigits cs1
  if ds = [] then none
  else if ds.length > 1 ∧ ds.headI = '0' then none
  else
    let core : Option (ℚ × List Char) :=
      match r1 with
      | '.' :: r2 =>
        let (fp, r3) := takeDigits r2
        if fp = [] then none
        else jsonExpStrict ((digitsToNat ds : ℚ) + (digitsToNat fp : ℚ) / (10 : ℚ) ^ fp.length) r3
      | _ => jsonExpStrict ((digitsToNat ds : ℚ)) r1
    match core with
    | some (q, r) => some (if neg then -q else q, r)
    | none => none

/-- Mode of the fuelled JSON reader: a single value, the items of an array
    after the opening bracket, or the members of an object after the opening
    brace. -/
inductive JMode where
  | val
  | items
  | members

/-- Output of the fuelled JSON reader, matching its mode. -/
inductive JOut where
  | v (j : Json)
  | items (xs : List Json)
  | members (kvs : List (String × Json))

/-- Fuelled JSON reader implementing the JSON.parse grammar. -/
def jsonRun : ℕ → JMode → List Char → Option (JOut × List Char)
  | 0, _, _ => none
  | f + 1, .val, cs0 =>
    match jsonSkipWs cs0 with
    | [] => none
    | '"' :: rest => (jsonStrChars rest).map (fun p => (.v (.str (String.mk p.1)), p.2))
    | '[' :: rest =>
      (match jsonSkipWs rest with
       | ']' :: r2 => some (.v (.arr []), r2)
       | r1 =>
         match jsonRun f .items r1 with
         | some (.items xs, r) => some (.v (.arr xs), r)
         | _ => none)
    | '{' :: rest =>
      (match jsonSkipWs rest with
       | '}' :: r2 => some (.v (.obj []), r2)
       | r1 =>
         match jsonRun f .members r1 with
         | some (.members kvs, r) => some (.v (.obj kvs), r)
         | _ => none)
    | cs =>
      if cs.take 4 = "null".toList then some (.v .null, cs.drop 4)
      else if cs.take 4 = "true".toList then some (.v (.bool true), cs.drop 4)
      else if cs.take 5 = "false".toList then some (.v (.bool false), cs.drop 5)
      else (jsonNumPref cs).map (fun p => (.v (.num p.1), p.2))
  | f + 1, .items, cs =>
    match jsonRun f .val cs with
    | some (.v j, r) =>
      (match jsonSkipWs r with
       | ',' :: r2 =>
         (match jsonRun f .items r2 with
          | some (.items xs, r3) => some (.items (j :: xs), r3)
          | _ => none)
       | ']' :: r2 => some (.items [j], r2)
       | _ => none)
    | _ => none
  | f + 1, .members, cs0 =>
    match jsonSkipWs cs0 with
    | '"' :: rest =>
      (match jsonStrChars rest with
       | some (k, r) =>
         (match jsonSkipWs r with
          | ':' :: r2 =>
            (match jsonRun f .val r2 with
             | some (.v j, r3) =>
               (match jsonSkipWs r3 with
                | ',' :: r4 =>
                  (match jsonRun f .members r4 with
                   | some (.members kvs, r5) => some (.members ((String.mk k, j) :: kvs), r5)
                   | _ => none)
                | '}' :: r4 => some (.members [(String.mk k, j)], r4)
                | _ => none)
             | _ => none)
          | _ => none)
       | none => none)
    | _ => none

/-- Model of JSON.parse: parse one value, allow trailing whitespace only;
    none models the thrown SyntaxError. -/
def jsonParse (s : String) : Option Json :=
  match jsonRun (2 * s.toList.length + 4) .val s.toList with
  | some (.v j, rest) => if jsonSkipWs rest = [] then some j else none
  | _ => none

/-- Typed value produced by parseValue for one variable. -/
inductive JsValue where
  | num (n : JsNum)
  | numArr (ns : List JsNum)
  | strArr (ss : List String)
  | json (j : Json)
  | str (s : String)

/-- Diagnostic for a blank required field (layout grid validateField). -/
def msgRequired : String := "Ce champ est requis."

/-- Diagnostic for a malformed number field (layout grid validateField). -/
def msgBadNumber : String := "Veuillez entrer un nombre valide (ex: 42 ou 3.14)."

/-- Diagnostic for a malformed segment of a number-array field. -/
def msgBadSegment (p : String) : String := "\"" ++ p ++ "\" n\'est pas un nombre valide."

/-- Diagnostic for a malformed json field (layout grid validateField). -/
def msgBadJson : String := "JSON invalide. Verifiez la syntaxe (guillemets, crochets, virgules)."

/-- Global error shown by the layout grid when validation fails. -/
def msgFixErrors : String := "Corrigez les erreurs dans les champs avant de calculer."

/-- Required-field error of the plain ExcelGrid handleCalculate. -/
def msgChampRequis (label : String) : String :=
  "Le champ \"" ++ label ++ "\" est requis."

/-- Stand-in for the message of the SyntaxError thrown by JSON.parse. -/
def msgSyntaxError : String := "Unexpected token in JSON"

/-- Split a character list at every comma; n commas yield n+1 segments, and
    empty segments are kept, as with the JavaScript split method. -/
def splitCommaChars : List Char → List (List Char)
  | [] => [[]]
  | ',' :: rest => [] :: splitCommaChars rest
  | c :: rest =>
    match splitCommaChars rest with
    | [] => [[c]]
    | h :: t => (c :: h) :: t

/-- Model of JavaScript s.split applied with separator comma. -/
def jsSplitComma (s : String) : List String :=
  (splitCommaChars s.toList).map String.mk

/-- First failing segment check of the number-array loop in validateField:
    segments are trimmed, empty segments are skipped, and the first trimmed
    segment whose Number() conversion is NaN yields its diagnostic. -/
def firstBadSegment : List String → String
  | [] => ""
  | seg :: rest =>
    let p := jsTrim seg
    if p = "" then firstBadSegment rest
    else if jsIsNaN (jsNumber p) then msgBadSegment p
    else firstBadSegment rest

/-- Embedding of validateField (frontend layout grid, lines 33-59): per-field
    diagnostic, or the empty string when the field is acceptable. -/
def validateField (raw ty : String) (required : Bool) : String :=
  let trimmed := jsTrim raw
  if trimmed = "" then (if required then msgRequired else "") else
  if ty = "number" then (if jsIsNaN (jsNumber trimmed) then msgBadNumber else "") else
  if ty = "number[]" then firstBadSegment (jsSplitComma trimmed) else
  if ty = "json" then (if (jsonParse trimmed).isSome then "" else msgBadJson) else
  ""

/-- Embedding of parseValue (ExcelGrid lines 29-39 and the identical copy in
    the layout grid): blank input becomes undefined (none); the json branch
    can throw (Except.error models the SyntaxError). -/
def parseValue (raw ty : String) : Except String (Option JsValue) :=
  if jsTrim raw = "" then .ok none else
  if ty = "number" then .ok (some (.num (jsParseFloat raw))) else
  if ty = "number[]" then
    .ok (some (.numArr ((jsSplitComma raw).map (fun s => jsParseFloat (jsTrim s))))) else
  if ty = "string[]" then .ok (some (.strArr ((jsSplitComma raw).map jsTrim))) else
  if ty = "json" then
    (match jsonParse raw with
     | some j => .ok (some (.json j))
     | none => .error msgSyntaxError) else
  .ok (some (.str raw))

/-- One variable of a FormulaDescriptor, as delivered by the API. -/
structure VariableSpec where
  name : String
  label : String
  type : String
  required : Bool
  placeholder : String
deriving DecidableEq, Repr

/-- The raw value of a field: values[v.name] ?? "". -/
def lookupRaw (values : List (String × String)) (name : String) : String :=
  ((values.lookup name).getD "")

/-- Response of the calculate endpoint (lib/api.ts CalculationResponse). -/
structure CalcResponse where
  formula : String
  result : List (String × Json)
  credits_remaining : ℤ

/-- Observable outcome of one handleCalculate run: a validation failure with
    its per-field error map, a failure surfaced in the single error banner, or
    a successful response. -/
inductive UiOutcome where
  | validationFailed (errors : List (String × String)) (globalError : String)
  | failure (globalError : String)
  | success (res : CalcResponse)

/-- Per-variable error map computed by the layout grid handleCalculate loop. -/
def collectErrors (vars : List VariableSpec) (values : List (String × String)) :
    List (String × String) :=
  vars.map (fun v => (v.name, validateField (lookupRaw values v.name) v.type v.required))

/-- Variables object built by the layout grid handleCalculate: parse each
    field in order, skipping undefined results; a thrown parse error aborts. -/
def buildVars (vars : List VariableSpec) (values : List (String × String)) :
    Except String (List (String × JsValue)) :=
  match vars with
  | [] => .ok []
  | v :: rest =>
    match parseValue (lookupRaw values v.name) v.type with
    | .error e => .error e
    | .ok none => buildVars rest values
    | .ok (some pv) =>
      match buildVars rest values with
      | .error e => .error e
      | .ok tl => .ok ((v.name, pv) :: tl)

/-- Embedding of the layout grid handleCalculate (layout file lines 98-139):
    validate every variable first, collecting one diagnostic per field; only
    when no field has a diagnostic build the variables and call the server.
    The second component is the argument passed to onCreditsUpdate, none when
    it is not invoked. -/
def handleCalculateL (vars : List VariableSpec) (values : List (String × String))
    (server : List (String × JsValue) → Except String CalcResponse) :
    UiOutcome × Option ℤ :=
  let newErrors := collectErrors vars values
  if newErrors.any (fun p => p.2 != "") then
    (.validationFailed newErrors msgFixErrors, none)
  else
    match buildVars vars values with
    | .error e => (.failure e, none)
    | .ok typed =>
      match server typed with
      | .ok res => (.success res, some res.credits_remaining)
      | .error e => (.failure e, none)

/-- Variables object built by the plain ExcelGrid handleCalculate (ExcelGrid
    lines 46-57): stops at the first blank required field with its single
    error message; parse errors (thrown by JSON.parse) also abort. -/
def buildVarsEG (vars : List VariableSpec) (values : List (String × String)) :
    Except String (List (String × JsValue)) :=
  match vars with
  | [] => .ok []
  | v :: rest =>
    let raw := lookupRaw values v.name
    if v.required && (jsTrim raw == "") then .error (msgChampRequis v.label)
    else
      match parseValue raw v.type with
      | .error e => .error e
      | .ok none => buildVarsEG rest values
      | .ok (some pv) =>
        match buildVarsEG rest values with
        | .error e => .error e
        | .ok tl => .ok ((v.name, pv) :: tl)

/-- Embedding of the plain ExcelGrid handleCalculate (ExcelGrid lines 41-67):
    no per-field validation pass; the first blank required field or thrown
    parse error surfaces in the single error banner. -/
def handleCalculateEG (vars : List VariableSpec) (values : List (String × String))
    (server : List (String × JsValue) → Except String CalcResponse) :
    UiOutcome × Option ℤ :=
  match buildVarsEG vars values with
  | .error e => (.failure e, none)
  | .ok typed =>
    match server typed with
    | .ok res => (.success res, some res.credits_remaining)
    | .error e => (.failure e, none)

/-- Client record as shown by the dashboard (lib/api.ts ClientInfo). -/
structure ClientInfo where
  id : ℕ
  name : String
  status : String
  credits : ℤ
deriving DecidableEq, Repr

/-- Embedding of the dashboard handleCreditsUpdate (dashboard page lines
    55-57): overwrite the stored credits when a client record is present. -/
def handleCreditsUpdate (credits : ℤ) (prev : Option ClientInfo) : Option ClientInfo :=
  match prev with
  | some p => some { p with credits := credits }
  | none => none

/-- Stored client record after one handleCalculate run: handleCreditsUpdate
    runs exactly when onCreditsUpdate was invoked. -/
def afterCalculate (client : Option ClientInfo) (ev : Option ℤ) : Option ClientInfo :=
  match ev with
  | some c => handleCreditsUpdate c client
  | none => client

/-- Modelled from the spec: lifecycle of a CreditReservation (spec section
    4.5); the backend that owns it (app/main.py, app/models.py) is not under
    src/. -/
inductive ResStatus where
  | pending
  | committed
  | released
deriving DecidableEq, Repr

/-- Modelled from the spec: one pending debit of a number of credits. -/
structure Reservation where
  amount : ℕ
  status : ResStatus
deriving DecidableEq, Repr

/-- Modelled from the spec: the per-client state owned by the Credit Gate —
    the balance plus every reservation taken so far, identified by its index. -/
structure GateState where
  balance : ℤ
  reservations : List Reservation
deriving DecidableEq, Repr

/-- Modelled from the spec: initial gate state with balance B and no
    reservations. -/
def initGate (B : ℕ) : GateState := ⟨(B : ℤ), []⟩

/-- Modelled from the spec: Reserve(client, cost) — atomically check the
    balance and, when sufficient, debit eagerly and hand out a fresh
    reservation handle; on insufficient balance fail with no mutation. -/
def reserve (s : GateState) (amount : ℕ) : Option ℕ × GateState :=
  if s.balance < (amount : ℤ) then (none, s)
  else (some s.reservations.length,
        ⟨s.balance - (amount : ℤ), s.reservations ++ [⟨amount, .pending⟩]⟩)

/-- Walk to reservation h; when it is still pending, mark it released and
    report its amount as the refund, otherwise change nothing. -/
def releaseList : List Reservation → ℕ → ℕ × List Reservation
  | [], _ => (0, [])
  | r :: rest, 0 =>
    if r.status = .pending then (r.amount, { r with status := .released } :: rest)
    else (0, r :: rest)
  | r :: rest, n + 1 =>
    let (refund, rest') := releaseList rest n
    (refund, r :: rest')

/-- Modelled from the spec: Release(reservation) — restore the debited amount
    when the reservation is still pending; releasing a committed, released or
    unknown reservation changes nothing (at-most-once release). -/
def release (s : GateState) (h : ℕ) : GateState :=
  let (refund, res') := releaseList s.reservations h
  ⟨s.balance + (refund : ℤ), res'⟩

/-- Walk to reservation h; when it is still pending, mark it committed. -/
def commitList : List Reservation → ℕ → List Reservation
  | [], _ => []
  | r :: rest, 0 =>
    if r.status = .pending then { r with status := .committed } :: rest
    else r :: rest
  | r :: rest, n + 1 => r :: commitList rest n

/-- Modelled from the spec: Commit(reservation) — close a pending reservation
    so Release can no longer affect it; the eager debit is already final. -/
def commit (s : GateState) (h : ℕ) : GateState :=
  ⟨s.balance, commitList s.reservations h⟩

/-- One atomic Credit Gate operation; any interleaving of concurrent request
    protocols is some sequence of these. -/
inductive GateOp where
  | reserve (amount : ℕ)
  | release (h : ℕ)
  | commit (h : ℕ)
deriving DecidableEq, Repr

/-- Apply one atomic gate operation. -/
def gateStep (s : GateState) : GateOp → GateState
  | .reserve a => (reserve s a).2
  | .release h => release s h
  | .commit h => commit s h

/-- Run a sequence of atomic gate operations. -/
def runGate (s : GateState) (ops : List GateOp) : GateState :=
  ops.foldl gateStep s

/-- Credits still bound to a reservation: its amount unless it was released. -/
def liveAmount (r : Reservation) : ℕ :=
  match r.status with
  | .released => 0
  | _ => r.amount

/-- Total credits bound to the reservations of a state. -/
def liveSum (l : List Reservation) : ℕ :=
  (l.map liveAmount).sum

/-- Number of committed (successfully credited) executions of a state. -/
def committedCount (s : GateState) : ℕ :=
  s.reservations.countP (fun r => r.status == .committed)

/-- Status of reservation h, if the handle exists. -/
def statusOf (s : GateState) (h : ℕ) : Option ResStatus :=
  (s.reservations[h]?).map (·.status)

/-- Modelled from the spec: the protocol of one cost-1 execution request
    whose compute call succeeds — reserve, then commit; a request whose
    reserve fails responds InsufficientCredits at once. The response of a
    successful request reports the post-debit balance (spec section 3,
    CalculationResult). -/
inductive ReqPhase where
  | start
  | reserved (h : ℕ) (post : ℤ)
  | doneOk (reported : ℤ)
  | doneInsufficient
deriving DecidableEq, Repr

/-- One atomic step of a single request against the gate. -/
def reqStep (gs : GateState) (p : ReqPhase) : GateState × ReqPhase :=
  match p with
  | .start =>
    (match reserve gs 1 with
     | (some h, gs') => (gs', .reserved h gs'.balance)
     | (none, _) => (gs, .doneInsufficient))
  | .reserved h post => (commit gs h, .doneOk post)
  | other => (gs, other)

/-- Joint state of two concurrent requests sharing one client's gate. -/
structure TwoState where
  gate : GateState
  p1 : ReqPhase
  p2 : ReqPhase
deriving DecidableEq, Repr

/-- Schedule step: false lets request 1 act, true lets request 2 act. -/
def twoStep (st : TwoState) (b : Bool) : TwoState :=
  if b then
    let (g, p) := reqStep st.gate st.p2
    ⟨g, st.p1, p⟩
  else
    let (g, p) := reqStep st.gate st.p1
    ⟨g, p, st.p2⟩

/-- Both requests start against a balance of exactly 1 credit. -/
def initTwo : TwoState := ⟨initGate 1, .start, .start⟩

/-- Run the two requests under an arbitrary interleaving schedule. -/
def runTwo (sched : List Bool) : TwoState :=
  sched.foldl twoStep initTwo

/-- A request has passed the balance check when it holds or held a successful
    reservation. -/
def reqPassed : ReqPhase → Bool
  | .reserved _ _ => true
  | .doneOk _ => true
  | _ => false

/-- A request has completed when it has produced its response. -/
def reqDone : ReqPhase → Bool
  | .doneOk _ => true
  | .doneInsufficient => true
  | _ => false

/-- Every state the two-request system can reach from initTwo. -/
def reachTwo : List TwoState :=
  [⟨⟨1, []⟩, .start, .start⟩,
   ⟨⟨0, [⟨1, .pending⟩]⟩, .reserved 0 0, .start⟩,
   ⟨⟨0, [⟨1, .pending⟩]⟩, .start, .reserved 0 0⟩,
   ⟨⟨0, [⟨1, .committed⟩]⟩, .doneOk 0, .start⟩,
   ⟨⟨0, [⟨1, .pending⟩]⟩, .reserved 0 0, .doneInsufficient⟩,
   ⟨⟨0, [⟨1, .committed⟩]⟩, .start, .doneOk 0⟩,
   ⟨⟨0, [⟨1, .pending⟩]⟩, .doneInsufficient, .reserved 0 0⟩,
   ⟨⟨0, [⟨1, .committed⟩]⟩, .doneOk 0, .doneInsufficient⟩,
   ⟨⟨0, [⟨1, .committed⟩]⟩, .doneInsufficient, .doneOk 0⟩]

/-- Modelled from the spec: administrative activation state of a client
    (spec section 3); the Client Directory backend (app/models.py) is not
    under src/. -/
inductive ClientStatus where
  | pending_payment
  | active
  | suspended
deriving DecidableEq, Repr

/-- Modelled from the spec: a Client Directory record. -/
structure ClientRec where
  id : ℕ
  name : String
  api_key : String
  status : ClientStatus
  credits : ℤ
deriving DecidableEq, Repr

/-- Modelled from the spec: the Credential Resolver — exact-match lookup of
    an API key in the Client Directory (spec section 4.1). -/
def resolveClient (dir : List ClientRec) (key : String) : Option ClientRec :=
  dir.find? (fun c => c.api_key == key)

/-- Modelled from the spec: one Formula Registry entry — key, declared
    variable schema, and opaque compute function (spec section 4.3). -/
structure FormulaEntry where
  key : String
  vars : List VariableSpec
  compute : List (String × JsValue) → Except String (List (String × Json))

/-- Modelled from the spec: the failure taxonomy of the gateway (spec
    section 7). -/
inductive GatewayError where
  | Unauthorized
  | AccountNotActive
  | FormulaNotFound
  | ValidationFailed (diags : List (String × String))
  | InsufficientCredits
  | ComputeError

/-- Debit one credit from a client in the directory. -/
def debitOne (dir : List ClientRec) (id : ℕ) : List ClientRec :=
  dir.map (fun c => if c.id = id then { c with credits := c.credits - 1 } else c)

/-- Modelled from the spec: the Execution Gateway pipeline for one request
    (spec sections 4.1-4.6, backend app/main.py not under src/): credential
    resolution, status gate, formula lookup, exhaustive validation, credit
    gate with unit cost, compute call, response with the post-debit balance.
    The returned directory reflects the committed debit, if any. -/
def executeFormula (dir : List ClientRec) (reg : List FormulaEntry)
    (apiKey formulaKey : String) (rawVars : List (String × String)) :
    Except GatewayError CalcResponse × List ClientRec :=
  match resolveClient dir apiKey with
  | none => (.error .Unauthorized, dir)
  | some c =>
    if c.status ≠ ClientStatus.active then (.error .AccountNotActive, dir)
    else
      match reg.find? (fun e => e.key == formulaKey) with
      | none => (.error .FormulaNotFound, dir)
      | some entry =>
        let diags := collectErrors entry.vars rawVars
        if diags.any (fun p => p.2 != "") then (.error (.ValidationFailed diags), dir)
        else if c.credits < 1 then (.error .InsufficientCredits, dir)
        else
          match buildVars entry.vars rawVars with
          | .error _ => (.error (.ValidationFailed diags), dir)
          | .ok typed =>
            match entry.compute typed with
            | .error _ => (.error .ComputeError, dir)
            | .ok out => (.ok ⟨formulaKey, out, c.credits - 1⟩, debitOne dir c.id)

/-- Modelled from the spec: the companion catalogue-listing operation —
    available to every authenticated caller; status does not gate catalogue
    visibility, only execution (spec section 6). -/
def listFormulas (dir : List ClientRec) (reg : List FormulaEntry)
    (apiKey : String) : Except GatewayError (List String) :=
  match resolveClient dir apiKey with
  | none => .error .Unauthorized
  | some _ => .ok (reg.map (fun e => e.key))

/-- The invariant of the Credit Gate: the balance is never negative and,
    together with the credits still bound to unreleased reservations, always
    accounts exactly for the starting balance. -/
def gateInv (B : ℕ) (s : GateState) : Prop :=
  0 ≤ s.balance ∧ s.balance + (liveSum s.reservations : ℤ) = (B : ℤ)

/-- All reservations of a state were taken at unit cost. -/
def amountsOne (s : GateState) : Prop :=
  ∀ r ∈ s.reservations, r.amount = 1

/-- Concrete required string field used in claim scenarios. -/
def fieldA : VariableSpec := ⟨"a", "A", "string", true, ""⟩

/-- Second concrete required string field used in claim scenarios. -/
def fieldB : VariableSpec := ⟨"b", "B", "string", true, ""⟩

/-- Concrete optional number field used in claim scenarios. -/
def fieldC : VariableSpec := ⟨"c", "C", "number", false, ""⟩

/-- A server stub that always fails, for scenarios that never reach it. -/
def demoServer : List (String × JsValue) → Except String CalcResponse :=
  fun _ => .error "Erreur serveur"

/-- A server stub that always succeeds with 7 credits remaining. -/
def okServer : List (String × JsValue) → Except String CalcResponse :=
  fun _ => .ok ⟨"sum", [("result", Json.num 7)], 7⟩

/-- A provisioned but not yet activated client. -/
def pendingClient : ClientRec := ⟨1, "Acme", "lx_pending", .pending_payment, 5⟩

/-- A suspended client. -/
def suspendedClient : ClientRec := ⟨2, "Bravo", "lx_susp", .suspended, 5⟩

/-- A directory holding the two non-active clients. -/
def demoDir : List ClientRec := [pendingClient, suspendedClient]

/-- A registry entry with one declared variable and a trivial compute body. -/
def demoEntry : FormulaEntry := ⟨"sum", [fieldC], fun _ => .ok [("result", Json.num 0)]⟩

/-- A registry holding the one demo formula. -/
def demoReg : List FormulaEntry := [demoEntry]

/-! Helper lemmas about the validator, the parsers, and the gate model. -/

theorem validateField_number (raw : String) (req : Bool) (h : jsTrim raw ≠ "") :
    validateField raw "number" req =
      (if jsIsNaN (jsNumber (jsTrim raw)) then msgBadNumber else "") := by
  unfold validateField
  simp [h]

theorem validateField_numArr (raw : String) (req : Bool) (h : jsTrim raw ≠ "") :
    validateField raw "number[]" req = firstBadSegment (jsSplitComma (jsTrim raw)) := by
  unfold validateField
  simp [h]

theorem validateField_json (raw : String) (req : Bool) (h : jsTrim raw ≠ "") :
    validateField raw "json" req =
      (if (jsonParse (jsTrim raw)).isSome then "" else msgBadJson) := by
  unfold validateField
  simp [h]

theorem validateField_string (raw : String) (req : Bool) (h : jsTrim raw ≠ "") :
    validateField raw "string" req = "" := by
  unfold validateField
  simp [h]

theorem msgBadSegment_ne_empty (p : String) : msgBadSegment p ≠ "" := by
  intro hc
  have hl := congrArg String.length hc
  rw [msgBadSegment] at hl
  simp [String.length_append] at hl
  exact absurd hl.1.1 (by decide)

theorem msgBadNumber_ne_empty : msgBadNumber ≠ "" := by decide

theorem firstBadSegment_eq_empty_iff (l : List String) :
    firstBadSegment l = "" ↔
      ∀ seg ∈ l, jsTrim seg ≠ "" → ¬ jsIsNaN (jsNumber (jsTrim seg)) := by
  induction l with
  | nil => simp [firstBadSegment]
  | cons seg rest ih =>
    by_cases h1 : jsTrim seg = ""
    · simp [firstBadSegment, h1, ih]
    · by_cases h2 : jsIsNaN (jsNumber (jsTrim seg))
      · simp [firstBadSegment, h1, h2, msgBadSegment_ne_empty]
      · simp [firstBadSegment, h1, h2, ih]

theorem trimChars_eq_rdropWhile (cs : List Char) :
    trimChars cs = List.rdropWhile isWsChar (cs.dropWhile isWsChar) := rfl

theorem dropWhile_eq_nil_of_trimChars_eq_nil {cs : List Char}
    (h : trimChars cs = []) : cs.dropWhile isWsChar = [] := by
  rw [trimChars_eq_rdropWhile] at h
  have hall : forall x, x ∈ cs.dropWhile isWsChar → isWsChar x := by
    simpa using (List.rdropWhile_eq_nil_iff).mp h
  rcases hd : cs.dropWhile isWsChar with _ | ⟨c, t⟩
  · rfl
  · exfalso
    have hpos : 0 < (cs.dropWhile isWsChar).length := by
      rw [hd]; simp
    have hnot := List.dropWhile_get_zero_not isWsChar cs hpos
    have hc : (cs.dropWhile isWsChar).get ⟨0, hpos⟩ = c := by
      simp [hd]
    rw [hc] at hnot
    exact hnot (hall c (by rw [hd]; simp))

theorem dropWhile_eq_self_of_trimChars_eq_self {cs : List Char}
    (h : trimChars cs = cs) : cs.dropWhile isWsChar = cs := by
  have h1 : (cs.dropWhile isWsChar).length ≤ cs.length :=
    (List.dropWhile_suffix isWsChar).length_le
  have h2 : cs.length ≤ (cs.dropWhile isWsChar).length := by
    conv_lhs => rw [← h, trimChars_eq_rdropWhile]
    exact ( List.rdropWhile_prefix isWsChar _).length_le
  exact (List.dropWhile_suffix isWsChar).eq_of_length (le_antisymm h1 h2)

theorem jsTrim_toList (s : String) : (jsTrim s).toList = trimChars s.toList := rfl

theorem toList_inj {s t : String} (h : s.toList = t.toList) : s = t := by
  cases s
  cases t
  simp only [String.toList] at h
  simp [h]

theorem jsTrim_eq_empty_iff (s : String) : jsTrim s = "" ↔ trimChars s.toList = [] := by
  constructor
  · intro h
    have h2 := congrArg String.toList h
    simpa [jsTrim_toList] using h2
  · intro h
    apply toList_inj
    simpa [jsTrim_toList] using h

theorem jsonParse_none_of_trim_empty (s : String) (h : jsTrim s = "") :
    jsonParse s = none := by
  have hdw : s.toList.dropWhile isWsChar = [] :=
    dropWhile_eq_nil_of_trimChars_eq_nil ((jsTrim_eq_empty_iff s).mp h)
  have hdw2 : List.dropWhile isWsChar s.data = [] := hdw
  have hrun : jsonRun (2 * s.toList.length + 3 + 1) JMode.val s.toList = none := by
    rw [jsonRun]
    simp [jsonSkipWs, hdw2]
  unfold jsonParse
  rw [show 2 * s.toList.length + 4 = 2 * s.toList.length + 3 + 1 from rfl, hrun]

theorem applyExp_not_e (v : ℚ) (c : Char) (rest : List Char)
    (he : c ≠ 'e') (hE : c ≠ 'E') :
    applyExp v (c :: rest) = (v, c :: rest) := by
  simp only [applyExp]
  rw [if_neg]
  intro hc
  rcases hc with hc | hc
  · exact he hc
  · exact hE hc

theorem decUnsignedPref_zero_letter (c : Char) (rest : List Char)
    (hd : Char.isDigit c = false) (hdot : c ≠ '.') (he : c ≠ 'e') (hE : c ≠ 'E') :
    decUnsignedPref ('0' :: c :: rest) = some ((0 : ℚ), c :: rest) := by
  have htake : List.takeWhile Char.isDigit ('0' :: c :: rest) = ['0'] := by
    simp [List.takeWhile_cons, hd]
  have hdrop : List.dropWhile Char.isDigit ('0' :: c :: rest) = c :: rest := by
    simp [List.dropWhile_cons, hd]
  unfold decUnsignedPref takeDigits
  rw [htake, hdrop]
  simp only [List.cons_ne_self, if_false]
  split
  · rename_i r2 heq
    exact absurd (List.head_eq_of_cons_eq heq) hdot
  · rw [applyExp_not_e _ c rest he hE]
    have h0 : digitsToNat ['0'] = 0 := rfl
    rw [h0]
    norm_num

theorem decSignedPref_zero_letter (c : Char) (rest : List Char)
    (hd : Char.isDigit c = false) (hdot : c ≠ '.') (he : c ≠ 'e') (hE : c ≠ 'E') :
    decSignedPref ('0' :: c :: rest) = some (JsNum.finite 0, c :: rest) := by
  have hinf : ¬ (List.take 8 ('0' :: c :: rest) = "Infinity".toList) := by
    intro hc
    rw [show "Infinity".toList = ['I','n','f','i','n','i','t','y'] from rfl] at hc
    exact absurd (List.head_eq_of_cons_eq hc) (by decide)
  have h1 : decSignedPref ('0' :: c :: rest) = decOrInf ('0' :: c :: rest) := rfl
  rw [h1]
  unfold decOrInf
  rw [if_neg hinf, decUnsignedPref_zero_letter c rest hd hdot he hE]
  rfl

theorem decFull_nonDecimal_none (cs : List Char) (v : JsNum)
    (h : decSignedPref cs = some (v, [])) : nonDecimal cs = none := by
  rcases cs with _ | ⟨c0, cs1⟩
  · rfl
  rcases cs1 with _ | ⟨c1, rest⟩
  · unfold nonDecimal
    split
    · rename_i c rest2 heq
      exact absurd (congrArg List.tail heq) (by simp)
    · rfl
  by_cases h0 : c0 = '0'
  · subst h0
    show (if c1 = 'x' ∨ c1 = 'X' then (radixNat 16 rest).map (fun n => (n : ℚ))
      else if c1 = 'o' ∨ c1 = 'O' then (radixNat 8 rest).map (fun n => (n : ℚ))
      else if c1 = 'b' ∨ c1 = 'B' then (radixNat 2 rest).map (fun n => (n : ℚ))
      else none) = none
    by_cases hx : c1 = 'x' ∨ c1 = 'X'
    · exfalso
      rcases hx with rfl | rfl <;>
        rw [decSignedPref_zero_letter _ _ (by decide) (by decide) (by decide) (by decide)] at h <;>
        · injection h with h1
          exact absurd (congrArg Prod.snd h1) (by simp)
    · rw [if_neg hx]
      by_cases ho : c1 = 'o' ∨ c1 = 'O'
      · exfalso
        rcases ho with rfl | rfl <;>
          rw [decSignedPref_zero_letter _ _ (by decide) (by decide) (by decide) (by decide)] at h <;>
          · injection h with h1
            exact absurd (congrArg Prod.snd h1) (by simp)
      · rw [if_neg ho]
        by_cases hb : c1 = 'b' ∨ c1 = 'B'
        · exfalso
          rcases hb with rfl | rfl <;>
            rw [decSignedPref_zero_letter _ _ (by decide) (by decide) (by decide) (by decide)] at h <;>
            · injection h with h1
              exact absurd (congrArg Prod.snd h1) (by simp)
        · rw [if_neg hb]
  · unfold nonDecimal
    split
    · rename_i c rest2 heq
      exact absurd (List.head_eq_of_cons_eq heq) h0
    · rfl

theorem jsNumber_agrees_jsParseFloat (s : String) (v : JsNum)
    (hs : jsTrim s = s) (hne : s ≠ "")
    (hfull : decSignedPref s.toList = some (v, [])) :
    jsNumber s = v ∧ jsParseFloat s = v := by
  have hcs : trimChars s.toList = s.toList := by
    have h2 := congrArg String.toList hs
    simpa [jsTrim_toList] using h2
  have hnil : s.toList ≠ [] := by
    intro hc
    apply hne
    apply toList_inj
    rw [hc]
    rfl
  have hdw : s.toList.dropWhile isWsChar = s.toList :=
    dropWhile_eq_self_of_trimChars_eq_self hcs
  constructor
  · unfold jsNumber
    rw [hcs, if_neg hnil, decFull_nonDecimal_none s.toList v hfull, hfull]
  · unfold jsParseFloat
    rw [hdw, hfull]

theorem handleCalculateL_eq (vars : List VariableSpec) (values : List (String × String))
    (server : List (String × JsValue) → Except String CalcResponse) :
    handleCalculateL vars values server =
      if ((collectErrors vars values).any fun p => p.2 != "") = true then
        (.validationFailed (collectErrors vars values) msgFixErrors, none)
      else
        match buildVars vars values with
        | .error e => (.failure e, none)
        | .ok typed =>
          match server typed with
          | .ok res => (.success res, some res.credits_remaining)
          | .error e => (.failure e, none) := rfl

theorem liveSum_cons (r : Reservation) (l : List Reservation) :
    liveSum (r :: l) = liveAmount r + liveSum l := by
  simp [liveSum]

theorem liveAmount_of_pending {r : Reservation} (h : r.status = .pending) :
    liveAmount r = r.amount := by
  unfold liveAmount
  rw [h]

theorem releaseList_liveSum (l : List Reservation) (h : ℕ) :
    (releaseList l h).1 + liveSum (releaseList l h).2 = liveSum l := by
  induction l generalizing h with
  | nil => simp [releaseList]
  | cons r rest ih =>
    cases h with
    | zero =>
      by_cases hp : r.status = .pending
      · simp only [releaseList, hp, if_true, liveSum_cons, liveAmount_of_pending hp]
        have h2 : liveAmount { r with status := ResStatus.released } = 0 := rfl
        rw [h2]
        omega
      · simp [releaseList, hp]
    | succ n =>
      simp only [releaseList, liveSum_cons]
      have := ih n
      omega

theorem commitList_liveSum (l : List Reservation) (h : ℕ) :
    liveSum (commitList l h) = liveSum l := by
  induction l generalizing h with
  | nil => simp [commitList]
  | cons r rest ih =>
    cases h with
    | zero =>
      by_cases hp : r.status = .pending
      · simp only [commitList, hp, if_true, liveSum_cons]
        rw [liveAmount_of_pending hp]
        simp [liveAmount]
      · simp [commitList, hp]
    | succ n =>
      simp only [commitList, liveSum_cons]
      rw [ih n]

theorem liveSum_append_pending (l : List Reservation) (a : ℕ) :
    liveSum (l ++ [⟨a, ResStatus.pending⟩]) = liveSum l + a := by
  simp [liveSum, liveAmount]

theorem gateStep_inv (B : ℕ) (s : GateState) (op : GateOp) (hinv : gateInv B s) :
    gateInv B (gateStep s op) := by
  rcases hinv with ⟨h0, hsum⟩
  cases op with
  | reserve a =>
    show gateInv B (reserve s a).2
    unfold reserve
    by_cases hlt : s.balance < (a : ℤ)
    · simpa [hlt, gateInv] using ⟨h0, hsum⟩
    · simp only [hlt, if_false, gateInv]
      constructor
      · show 0 ≤ s.balance - (a : ℤ)
        omega
      · show s.balance - (a : ℤ) +
            (liveSum (s.reservations ++ [⟨a, ResStatus.pending⟩]) : ℤ) = (B : ℤ)
        rw [liveSum_append_pending]
        push_cast
        omega
  | release h =>
    show gateInv B (release s h)
    unfold release
    have hr := releaseList_liveSum s.reservations h
    constructor
    · show 0 ≤ s.balance + ((releaseList s.reservations h).1 : ℤ)
      omega
    · show s.balance + ((releaseList s.reservations h).1 : ℤ) +
          (liveSum (releaseList s.reservations h).2 : ℤ) = (B : ℤ)
      omega
  | commit h =>
    show gateInv B (commit s h)
    unfold commit
    exact ⟨h0, by simpa [commitList_liveSum] using hsum⟩

theorem releaseList_amounts (l : List Reservation) (h : ℕ) :
    ((releaseList l h).2).map (·.amount) = l.map (·.amount) := by
  induction l generalizing h with
  | nil => simp [releaseList]
  | cons r rest ih =>
    cases h with
    | zero =>
      by_cases hp : r.status = .pending
      · simp [releaseList, hp]
      · simp [releaseList, hp]
    | succ n =>
      simp [releaseList, ih n]

theorem commitList_amounts (l : List Reservation) (h : ℕ) :
    (commitList l h).map (·.amount) = l.map (·.amount) := by
  induction l generalizing h with
  | nil => simp [commitList]
  | cons r rest ih =>
    cases h with
    | zero =>
      by_cases hp : r.status = .pending
      · simp [commitList, hp]
      · simp [commitList, hp]
    | succ n =>
      simp [commitList, ih n]

theorem amountsOne_of_map_eq {l l2 : List Reservation}
    (hmap : l2.map (·.amount) = l.map (·.amount))
    (h1 : ∀ r ∈ l, r.amount = 1) : ∀ r ∈ l2, r.amount = 1 := by
  intro r hr
  have hmem : r.amount ∈ l2.map (·.amount) := List.mem_map.mpr ⟨r, hr, rfl⟩
  rw [hmap] at hmem
  rcases List.mem_map.mp hmem with ⟨r2, hr2, he⟩
  rw [← he]
  exact h1 r2 hr2

theorem gateStep_amountsOne (s : GateState) (op : GateOp) (h1 : amountsOne s)
    (hop : ∀ a, op = GateOp.reserve a → a = 1) :
    amountsOne (gateStep s op) := by
  cases op with
  | reserve a =>
    show amountsOne (reserve s a).2
    unfold reserve
    by_cases hlt : s.balance < (a : ℤ)
    · simpa [hlt] using h1
    · simp only [hlt, if_false]
      intro r hr
      rcases List.mem_append.mp hr with hl | hr2
      · exact h1 r hl
      · rcases List.mem_singleton.mp hr2 with rfl
        exact hop a rfl
  | release h =>
    exact amountsOne_of_map_eq (releaseList_amounts s.reservations h) h1
  | commit h =>
    exact amountsOne_of_map_eq (commitList_amounts s.reservations h) h1

theorem committedCount_le_liveSum (l : List Reservation)
    (h1 : ∀ r ∈ l, r.amount = 1) :
    l.countP (fun r => r.status == .committed) ≤ liveSum l := by
  induction l with
  | nil => simp [liveSum]
  | cons r rest ih =>
    obtain ⟨amt, st⟩ := r
    have hr1 : amt = 1 := h1 ⟨amt, st⟩ (List.mem_cons_self _ _)
    have hrest := ih (fun x hx => h1 x (List.mem_cons_of_mem _ hx))
    subst hr1
    rcases st with _ | _ | _ <;>
      simp [List.countP_cons, liveSum_cons, liveAmount] <;> omega

theorem runGate_inv_amounts (B : ℕ) (ops : List GateOp) (s : GateState)
    (hinv : gateInv B s) (h1 : amountsOne s)
    (hops : ∀ a, GateOp.reserve a ∈ ops → a = 1) :
    gateInv B (runGate s ops) ∧ amountsOne (runGate s ops) := by
  induction ops generalizing s with
  | nil => exact ⟨hinv, h1⟩
  | cons op rest ih =>
    have hop1 : ∀ a, op = GateOp.reserve a → a = 1 := by
      intro a ha
      exact hops a (ha ▸ List.mem_cons_self op rest)
    have hrest : ∀ a, GateOp.reserve a ∈ rest → a = 1 := by
      intro a ha
      exact hops a (List.mem_cons_of_mem op ha)
    exact ih (gateStep s op) (gateStep_inv B s op hinv) (gateStep_amountsOne s op h1 hop1) hrest

theorem releaseList_getElem (l : List Reservation) (h i : ℕ) :
    ((releaseList l h).2)[i]? =
      if i = h then
        (l[i]?).map (fun r => if r.status = .pending then { r with status := .released } else r)
      else l[i]? := by
  induction l generalizing h i with
  | nil =>
    simp [releaseList]
  | cons r rest ih =>
    cases h with
    | zero =>
      cases i with
      | zero =>
        by_cases hp : r.status = .pending <;> simp [releaseList, hp]
      | succ j =>
        by_cases hp : r.status = .pending <;> simp [releaseList, hp]
    | succ n =>
      cases i with
      | zero => simp [releaseList]
      | succ j =>
        simp only [releaseList, List.getElem?_cons_succ]
        rw [ih n j]
        by_cases hj : j = n <;> simp [hj]

theorem commitList_getElem (l : List Reservation) (h i : ℕ) :
    (commitList l h)[i]? =
      if i = h then
        (l[i]?).map (fun r => if r.status = .pending then { r with status := .committed } else r)
      else l[i]? := by
  induction l generalizing h i with
  | nil =>
    simp [commitList]
  | cons r rest ih =>
    cases h with
    | zero =>
      cases i with
      | zero =>
        by_cases hp : r.status = .pending <;> simp [commitList, hp]
      | succ j =>
        by_cases hp : r.status = .pending <;> simp [commitList, hp]
    | succ n =>
      cases i with
      | zero => simp [commitList]
      | succ j =>
        simp only [commitList, List.getElem?_cons_succ]
        rw [ih n j]
        by_cases hj : j = n <;> simp [hj]

theorem releaseList_noop (l : List Reservation) (h : ℕ) (r : Reservation)
    (hr : l[h]? = some r) (hnp : r.status ≠ .pending) :
    releaseList l h = (0, l) := by
  induction l generalizing h with
  | nil => simp at hr
  | cons x rest ih =>
    cases h with
    | zero =>
      simp only [List.getElem?_cons_zero, Option.some.injEq] at hr
      subst hr
      simp [releaseList, hnp]
    | succ n =>
      simp only [List.getElem?_cons_succ] at hr
      simp [releaseList, ih n hr]

theorem release_of_not_pending (s : GateState) (h : ℕ) (r : Reservation)
    (hr : s.reservations[h]? = some r) (hnp : r.status ≠ .pending) :
    release s h = s := by
  unfold release
  rw [releaseList_noop s.reservations h r hr hnp]
  cases s
  simp

theorem statusOf_gateStep_released (s : GateState) (h : ℕ) (op : GateOp)
    (hrel : statusOf s h = some .released) :
    statusOf (gateStep s op) h = some .released := by
  obtain ⟨r, hr, hs⟩ : ∃ r, s.reservations[h]? = some r ∧ r.status = .released := by
    unfold statusOf at hrel
    rcases hg : s.reservations[h]? with _ | r
    · rw [hg] at hrel; exact Option.noConfusion hrel
    · rw [hg] at hrel
      exact ⟨r, rfl, by injection hrel⟩
  have hlt : h < s.reservations.length := List.getElem?_eq_some_iff.mp hr |>.choose
  cases op with
  | reserve a =>
    show statusOf (reserve s a).2 h = some .released
    unfold reserve
    by_cases hbal : s.balance < (a : ℤ)
    · rw [if_pos hbal]
      exact hrel
    · rw [if_neg hbal]
      unfold statusOf
      rw [List.getElem?_append, if_pos hlt, hr]
      simp [hs]
  | release h2 =>
    show statusOf (release s h2) h = some .released
    unfold release statusOf
    simp only []
    rw [releaseList_getElem s.reservations h2 h]
    by_cases he : h = h2
    · rw [if_pos he, hr]
      simp [hs]
    · rw [if_neg he, hr]
      simp [hs]
  | commit h2 =>
    show statusOf (commit s h2) h = some .released
    unfold commit statusOf
    simp only []
    rw [commitList_getElem s.reservations h2 h]
    by_cases he : h = h2
    · rw [if_pos he, hr]
      simp [hs]
    · rw [if_neg he, hr]
      simp [hs]

theorem statusOf_runGate_released (s : GateState) (h : ℕ) (ops : List GateOp)
    (hrel : statusOf s h = some .released) :
    statusOf (runGate s ops) h = some .released := by
  induction ops generalizing s with
  | nil => exact hrel
  | cons op rest ih =>
    exact ih (gateStep s op) (statusOf_gateStep_released s h op hrel)

theorem release_of_released (s : GateState) (h : ℕ)
    (hrel : statusOf s h = some .released) : release s h = s := by
  obtain ⟨r, hr, hs⟩ : ∃ r, s.reservations[h]? = some r ∧ r.status = .released := by
    unfold statusOf at hrel
    rcases hg : s.reservations[h]? with _ | r
    · rw [hg] at hrel; exact Option.noConfusion hrel
    · rw [hg] at hrel
      exact ⟨r, rfl, by injection hrel⟩
  exact release_of_not_pending s h r hr (by rw [hs]; intro hc; exact ResStatus.noConfusion hc)

theorem releaseList_concat_pending (l : List Reservation) (a : ℕ) :
    releaseList (l ++ [⟨a, .pending⟩]) l.length = (a, l ++ [⟨a, .released⟩]) := by
  induction l with
  | nil => simp [releaseList]
  | cons r rest ih =>
    simp only [List.cons_append, List.length_cons, releaseList, List.append_eq, ih]

theorem reserve_some (s : GateState) (a h : ℕ) (s2 : GateState)
    (hres : reserve s a = (some h, s2)) :
    h = s.reservations.length ∧
    s2 = ⟨s.balance - (a : ℤ), s.reservations ++ [⟨a, .pending⟩]⟩ := by
  unfold reserve at hres
  by_cases hlt : s.balance < (a : ℤ)
  · rw [if_pos hlt] at hres
    exact absurd (congrArg Prod.fst hres) (by simp)
  · rw [if_neg hlt] at hres
    have h1 := congrArg Prod.fst hres
    have h2 := congrArg Prod.snd hres
    simp only [] at h1 h2
    exact ⟨by injection h1 with hh; exact hh.symm, h2.symm⟩

/-! Claim theorems. -/

/-- Claim C1: for a client whose balance is exactly 1, under every
    interleaving of two concurrent cost-1 execution requests against the
    atomic Credit Gate, the two requests never both pass the balance check,
    and once both have completed exactly one holds a success response
    reporting remaining balance 0 while the other holds InsufficientCredits,
    with the final balance 0 (never -1 or 1). -/
theorem C1_concurrent_unit_requests (sched : List Bool) :
    (¬ (reqPassed (runTwo sched).p1 = true ∧ reqPassed (runTwo sched).p2 = true)) ∧
    (reqDone (runTwo sched).p1 = true → reqDone (runTwo sched).p2 = true →
      (runTwo sched).gate.balance = 0 ∧
      (((runTwo sched).p1 = .doneOk 0 ∧ (runTwo sched).p2 = .doneInsufficient) ∨
       ((runTwo sched).p1 = .doneInsufficient ∧ (runTwo sched).p2 = .doneOk 0))) := by
  have hstep : ∀ st ∈ reachTwo, ∀ b, twoStep st b ∈ reachTwo := by
    intro st hst b
    fin_cases hst <;> cases b <;> decide
  have hreach : ∀ (l : List Bool) (st : TwoState), st ∈ reachTwo →
      l.foldl twoStep st ∈ reachTwo := by
    intro l
    induction l with
    | nil => intro st h; exact h
    | cons b t ih =>
      intro st h
      exact ih (twoStep st b) (hstep st h b)
  have hmem : runTwo sched ∈ reachTwo := hreach sched initTwo (by decide)
  have hprop : ∀ st ∈ reachTwo,
      (¬ (reqPassed st.p1 = true ∧ reqPassed st.p2 = true)) ∧
      (reqDone st.p1 = true → reqDone st.p2 = true →
        st.gate.balance = 0 ∧
        ((st.p1 = .doneOk 0 ∧ st.p2 = .doneInsufficient) ∨
         (st.p1 = .doneInsufficient ∧ st.p2 = .doneOk 0))) := by
    intro st hst
    fin_cases hst <;> exact (by decide)
  exact hprop (runTwo sched) hmem

/-- Witness for C1 at the schedule request1, request2, request1. -/
theorem C1_concurrent_unit_requests_witness :
    (runTwo [false, true, false]).gate.balance = 0 ∧
    (((runTwo [false, true, false]).p1 = .doneOk 0 ∧
      (runTwo [false, true, false]).p2 = .doneInsufficient) ∨
     ((runTwo [false, true, false]).p1 = .doneInsufficient ∧
      (runTwo [false, true, false]).p2 = .doneOk 0)) :=
  (C1_concurrent_unit_requests [false, true, false]).2 rfl rfl

/-- Claim C2: starting from balance B, after any sequence of atomic Credit
    Gate operations taken at unit cost (hence after any interleaving of
    concurrent execution attempts, every prefix being such a sequence), the
    balance is never negative and the number of committed (successfully
    credited) executions never exceeds B. -/
theorem C2_balance_never_negative (B : ℕ) (ops : List GateOp)
    (hops : ∀ a, GateOp.reserve a ∈ ops → a = 1) :
    0 ≤ (runGate (initGate B) ops).balance ∧
    committedCount (runGate (initGate B) ops) ≤ B := by
  have hinit : gateInv B (initGate B) := by
    constructor
    · simp [initGate]
    · simp [initGate, liveSum]
  have h1 : amountsOne (initGate B) := by
    intro r hr
    simp [initGate] at hr
  obtain ⟨⟨h0, hsum⟩, hall⟩ := runGate_inv_amounts B ops (initGate B) hinit h1 hops
  refine ⟨h0, ?_⟩
  have hcount := committedCount_le_liveSum (runGate (initGate B) ops).reservations hall
  unfold committedCount
  omega

/-- Witness for C2: one credit, a committed execution, then a failing
    reserve. -/
theorem C2_balance_never_negative_witness :
    0 ≤ (runGate (initGate 1) [GateOp.reserve 1, GateOp.commit 0, GateOp.reserve 1]).balance ∧
    committedCount (runGate (initGate 1)
      [GateOp.reserve 1, GateOp.commit 0, GateOp.reserve 1]) ≤ 1 :=
  C2_balance_never_negative 1 [GateOp.reserve 1, GateOp.commit 0, GateOp.reserve 1]
    (by
      intro a ha
      simp only [List.mem_cons, List.not_mem_nil, or_false] at ha
      rcases ha with h | h | h
      · injection h
      · exact absurd h (by simp)
      · injection h)

/-- Claim C3: releasing a reservation taken by a successful Reserve restores
    the balance exactly to its pre-reservation value and leaves the
    reservation released; a released reservation stays released under every
    further operation sequence and releasing it again changes nothing, so
    release is at-most-once and a second Release never double-credits. -/
theorem C3_release_exact_and_at_most_once :
    (∀ (s : GateState) (a h : ℕ) (s2 : GateState),
        reserve s a = (some h, s2) →
        (release s2 h).balance = s.balance ∧
        statusOf (release s2 h) h = some ResStatus.released) ∧
    (∀ (s : GateState) (h : ℕ),
        statusOf s h = some ResStatus.released → release s h = s) ∧
    (∀ (s : GateState) (h : ℕ) (ops : List GateOp),
        statusOf s h = some ResStatus.released →
        statusOf (runGate s ops) h = some ResStatus.released ∧
        release (runGate s ops) h = runGate s ops) := by
  refine ⟨?_, release_of_released, ?_⟩
  · intro s a h s2 hres
    obtain ⟨hh, hs2⟩ := reserve_some s a h s2 hres
    subst hh
    subst hs2
    constructor
    · show (release _ _).balance = s.balance
      unfold release
      simp only [releaseList_concat_pending]
      omega
    · unfold release statusOf
      simp only [releaseList_concat_pending]
      have hget : (s.reservations ++ [(⟨a, .released⟩ : Reservation)])[s.reservations.length]? =
          some ⟨a, .released⟩ := by
        rw [List.getElem?_append_right (le_refl _)]
        simp
      rw [hget]
      rfl
  · intro s h ops hrel
    refine ⟨statusOf_runGate_released s h ops hrel, ?_⟩
    exact release_of_released _ h (statusOf_runGate_released s h ops hrel)

/-- Witness for C3: reserve the last credit then release it twice. -/
theorem C3_release_exact_and_at_most_once_witness :
    (release ⟨0, [⟨1, ResStatus.pending⟩]⟩ 0).balance = (1 : ℤ) ∧
    statusOf (release ⟨0, [⟨1, ResStatus.pending⟩]⟩ 0) 0 = some ResStatus.released ∧
    release (release ⟨0, [⟨1, ResStatus.pending⟩]⟩ 0) 0 =
      release ⟨0, [⟨1, ResStatus.pending⟩]⟩ 0 := by
  have h1 := C3_release_exact_and_at_most_once.1 ⟨1, []⟩ 1 0 ⟨0, [⟨1, ResStatus.pending⟩]⟩ rfl
  have h2 := C3_release_exact_and_at_most_once.2.1 (release ⟨0, [⟨1, ResStatus.pending⟩]⟩ 0) 0 h1.2
  exact ⟨h1.1, h1.2, h2⟩

/-- Counterexample to claim C4 as stated: the grid component actually wired
    into the dashboard (components/ExcelGrid.tsx handleCalculate) stops at the
    first blank required field — with two required fields missing and one
    malformed number it produces the single diagnostic for field A, the same
    outcome as when the malformed number is absent altogether, while the
    validateField-based grid produces all three diagnostics at the same
    input. -/
theorem C4_counterexample :
    handleCalculateEG [fieldA, fieldB, fieldC] [("c", "abc")] demoServer =
      (.failure (msgChampRequis "A"), none) ∧
    handleCalculateEG [fieldA, fieldB, fieldC] [("c", "abc")] demoServer =
      handleCalculateEG [fieldA, fieldB, fieldC] [] demoServer ∧
    (handleCalculateL [fieldA, fieldB, fieldC] [("c", "abc")] demoServer).1 =
      .validationFailed [("a", msgRequired), ("b", msgRequired), ("c", msgBadNumber)]
        msgFixErrors :=
  ⟨rfl, rfl, rfl⟩

/-- Claim C4 (amended): in the validateField-based grid (the handleCalculate
    of the second ExcelGrid variant), validation is exhaustive — whenever any
    field has a diagnostic, the run fails before contacting the server and
    the failure carries the diagnostic of every variable of the descriptor,
    so the two-missing-fields-plus-malformed-number request yields all three
    diagnostics in one response; the plain ExcelGrid variant instead stops at
    the first missing required field (see the counterexample). -/
theorem C4_amended_exhaustive_validation (vars : List VariableSpec)
    (values : List (String × String))
    (server : List (String × JsValue) → Except String CalcResponse)
    (v : VariableSpec) (hv : v ∈ vars)
    (hbad : validateField (lookupRaw values v.name) v.type v.required ≠ "") :
    (handleCalculateL vars values server).1 =
      .validationFailed (collectErrors vars values) msgFixErrors ∧
    (handleCalculateL vars values server).2 = none ∧
    ∀ w ∈ vars,
      (w.name, validateField (lookupRaw values w.name) w.type w.required) ∈
        collectErrors vars values := by
  have hany : (collectErrors vars values).any (fun p => p.2 != "") = true := by
    rw [List.any_eq_true]
    refine ⟨(v.name, validateField (lookupRaw values v.name) v.type v.required), ?_, ?_⟩
    · exact List.mem_map.mpr ⟨v, hv, rfl⟩
    · simpa using hbad
  unfold handleCalculateL
  rw [if_pos hany]
  refine ⟨rfl, rfl, ?_⟩
  intro w hw
  exact List.mem_map.mpr ⟨w, hw, rfl⟩

/-- Witness for the amended C4 at the three-bad-fields request. -/
theorem C4_amended_exhaustive_validation_witness :
    (handleCalculateL [fieldA, fieldB, fieldC] [("c", "abc")] demoServer).1 =
      .validationFailed (collectErrors [fieldA, fieldB, fieldC] [("c", "abc")]) msgFixErrors ∧
    (handleCalculateL [fieldA, fieldB, fieldC] [("c", "abc")] demoServer).2 = none ∧
    ∀ w ∈ [fieldA, fieldB, fieldC],
      (w.name, validateField (lookupRaw [("c", "abc")] w.name) w.type w.required) ∈
        collectErrors [fieldA, fieldB, fieldC] [("c", "abc")] :=
  C4_amended_exhaustive_validation [fieldA, fieldB, fieldC] [("c", "abc")] demoServer fieldA
    (by decide) (by decide)

/-- Counterexample to claim C5 as stated: the input 1,,3 passes validation
    (the empty segment is skipped there), but coercion does not skip the
    empty segment — parseValue maps parseFloat over every segment, so the
    coerced sequence has three entries with NaN in the middle. -/
theorem C5_counterexample :
    validateField "1,,3" "number[]" true = "" ∧
    parseValue "1,,3" "number[]" =
      .ok (some (.numArr [.finite 1, .nan, .finite 3])) :=
  ⟨by decide, rfl⟩

/-- Claim C5 (amended): for a number-array variable the trimmed raw value is
    split on commas and validation accepts it exactly when every non-empty
    trimmed segment converts to a number, empty segments being skipped by
    validation rather than rejected; coercion maps parseFloat over the
    segments of the raw value, so 1, 2,3 coerces to the ordered sequence
    1, 2, 3, while an empty segment contributes a NaN entry instead of being
    skipped. -/
theorem C5_amended_number_array :
    (∀ (raw : String) (req : Bool), jsTrim raw ≠ "" →
      ((validateField raw "number[]" req = "") ↔
        ∀ seg ∈ jsSplitComma (jsTrim raw), jsTrim seg ≠ "" →
          ¬ jsIsNaN (jsNumber (jsTrim seg)))) ∧
    parseValue "1, 2,3" "number[]" =
      .ok (some (.numArr [.finite 1, .finite 2, .finite 3])) ∧
    (∀ (raw : String), jsTrim raw ≠ "" →
      parseValue raw "number[]" =
        .ok (some (.numArr ((jsSplitComma raw).map (fun s => jsParseFloat (jsTrim s)))))) := by
  refine ⟨?_, rfl, ?_⟩
  · intro raw req h
    rw [validateField_numArr raw req h]
    exact firstBadSegment_eq_empty_iff _
  · intro raw h
    unfold parseValue
    simp [h]

/-- Witness for the amended C5 at the input 4, 5. -/
theorem C5_amended_number_array_witness :
    validateField "4, 5" "number[]" true = "" :=
  (C5_amended_number_array.1 "4, 5" true (by decide)).mpr (by decide)

/-- Counterexample to claim C6 as stated: Infinity is accepted by validation
    although it does not parse as a finite decimal number, and 0x10 is
    accepted with validated value 16 while the coerced value parseFloat
    produces is 0, not that number. -/
theorem C6_counterexample :
    validateField "Infinity" "number" true = "" ∧ jsNumber "Infinity" = .posInf ∧
    validateField "0x10" "number" true = "" ∧ jsNumber "0x10" = .finite 16 ∧
    parseValue "0x10" "number" = .ok (some (.num (.finite 0))) :=
  ⟨by decide, by decide, by decide, by decide, rfl⟩

/-- Claim C6 (amended): a non-blank raw value of a number variable is
    accepted by validation exactly when Number() of its trimmed form is not
    NaN — this accepts every finite decimal but also Infinity and 0x/0o/0b
    literals; otherwise the per-field bad-number diagnostic is produced. The
    coerced typed value is parseFloat of the raw value, which equals the
    validated number whenever the trimmed value is entirely a signed decimal
    or Infinity literal, but can differ on the non-decimal accepted forms
    (see the counterexample). -/
theorem C6_amended_number_validation :
    (∀ (raw : String) (req : Bool), jsTrim raw ≠ "" →
      ((validateField raw "number" req = "") ↔ ¬ jsIsNaN (jsNumber (jsTrim raw))) ∧
      (jsIsNaN (jsNumber (jsTrim raw)) → validateField raw "number" req = msgBadNumber)) ∧
    (∀ (raw : String), jsTrim raw ≠ "" →
      parseValue raw "number" = .ok (some (.num (jsParseFloat raw)))) ∧
    (∀ (s : String) (v : JsNum), jsTrim s = s → s ≠ "" →
      decSignedPref s.toList = some (v, []) →
      jsNumber s = v ∧ jsParseFloat s = v) ∧
    jsNumber "42" = .finite 42 := by
  refine ⟨?_, ?_, jsNumber_agrees_jsParseFloat, by decide⟩
  · intro raw req h
    rw [validateField_number raw req h]
    constructor
    · rcases hn : jsIsNaN (jsNumber (jsTrim raw)) with _ | _ <;> simp [msgBadNumber_ne_empty]
    · intro hnan
      simp [hnan]
  · intro raw h
    unfold parseValue
    simp [h]

/-- Witness for the amended C6 at the inputs 42 with spaces and 3.5. -/
theorem C6_amended_number_validation_witness :
    validateField " 42 " "number" true = "" ∧
    parseValue " 42 " "number" = .ok (some (.num (jsParseFloat " 42 "))) ∧
    (jsNumber "3.5" = jsParseFloat "3.5" ∧ jsParseFloat "3.5" = jsParseFloat "3.5") :=
  ⟨((C6_amended_number_validation.1 " 42 " true (by decide)).1).mpr (by decide),
   C6_amended_number_validation.2.1 " 42 " (by decide),
   C6_amended_number_validation.2.2.1 "3.5" (jsParseFloat "3.5") (by decide) (by decide) rfl⟩

/-- Claim C7: a json variable is accepted by validation exactly when its
    trimmed raw value parses as well-formed structured data; every raw value
    JSON.parse accepts coerces to the equivalent structured value (object,
    array or scalar); malformed syntax yields the per-field JSON diagnostic
    — a message specific to the JSON parse failure, distinct from the other
    diagnostics — rather than being swallowed as a generic error. -/
theorem C7_json_validation :
    (∀ (raw : String) (req : Bool), jsTrim raw ≠ "" →
      ((validateField raw "json" req = "") ↔ (jsonParse (jsTrim raw)).isSome) ∧
      ((jsonParse (jsTrim raw)).isSome = false → validateField raw "json" req = msgBadJson)) ∧
    (∀ (raw : String) (j : Json), jsonParse raw = some j →
      parseValue raw "json" = .ok (some (.json j))) ∧
    jsonParse "\x7b\"a\":1\x7d" = some (Json.obj [("a", Json.num 1)]) ∧
    validateField "\x7b\"a\":\x7d" "json" true = msgBadJson ∧
    msgBadJson ≠ msgRequired ∧ msgBadJson ≠ msgBadNumber := by
  refine ⟨?_, ?_, rfl, by decide, by decide, by decide⟩
  · intro raw req h
    rw [validateField_json raw req h]
    constructor
    · rcases hp : (jsonParse (jsTrim raw)).isSome with _ | _ <;>
        simp [show msgBadJson ≠ "" from by decide]
    · intro hnone
      simp [hnone]
  · intro raw j hj
    have hne : jsTrim raw ≠ "" := by
      intro hc
      rw [jsonParse_none_of_trim_empty raw hc] at hj
      exact Option.noConfusion hj
    unfold parseValue
    simp [hne, hj]

/-- Witness for C7 at the well-formed array input. -/
theorem C7_json_validation_witness :
    validateField "[1,2]" "json" true = "" ∧
    parseValue "[1,2]" "json" = .ok (some (.json (Json.arr [Json.num 1, Json.num 2]))) :=
  ⟨((C7_json_validation.1 "[1,2]" true (by decide)).1).mpr (by decide),
   C7_json_validation.2.1 "[1,2]" (Json.arr [Json.num 1, Json.num 2]) rfl⟩

/-- Claim C8: a client resolved by a valid API key whose status is not
    active — pending_payment or suspended — receives AccountNotActive from
    the execution operation, with no directory mutation, while the
    catalogue-listing operation still succeeds for the same credentials:
    status gates execution but not catalogue visibility. -/
theorem C8_status_gating (dir : List ClientRec) (reg : List FormulaEntry)
    (key fk : String) (rawVars : List (String × String)) (c : ClientRec)
    (hres : resolveClient dir key = some c) (hstat : c.status ≠ ClientStatus.active) :
    (executeFormula dir reg key fk rawVars).1 = .error .AccountNotActive ∧
    (executeFormula dir reg key fk rawVars).2 = dir ∧
    listFormulas dir reg key = .ok (reg.map (fun e => e.key)) := by
  unfold executeFormula listFormulas
  rw [hres]
  simp [hstat]

/-- Witness for C8 on a pending_payment client and on a suspended client. -/
theorem C8_status_gating_witness :
    ((executeFormula demoDir demoReg "lx_pending" "sum" []).1 = .error .AccountNotActive ∧
     (executeFormula demoDir demoReg "lx_pending" "sum" []).2 = demoDir ∧
     listFormulas demoDir demoReg "lx_pending" = .ok (demoReg.map (fun e => e.key))) ∧
    ((executeFormula demoDir demoReg "lx_susp" "sum" []).1 = .error .AccountNotActive ∧
     (executeFormula demoDir demoReg "lx_susp" "sum" []).2 = demoDir ∧
     listFormulas demoDir demoReg "lx_susp" = .ok (demoReg.map (fun e => e.key))) :=
  ⟨C8_status_gating demoDir demoReg "lx_pending" "sum" [] pendingClient rfl (by decide),
   C8_status_gating demoDir demoReg "lx_susp" "sum" [] suspendedClient rfl (by decide)⟩

/-- Counterexample to claim C9 as stated: a string field surrounded by
    whitespace is passed through exactly as typed, not trimmed — the coerced
    value keeps the surrounding spaces. -/
theorem C9_counterexample :
    parseValue "  hi  " "string" = .ok (some (.str "  hi  ")) ∧
    jsTrim "  hi  " = "hi" ∧ ("  hi  " : String) ≠ "hi" :=
  ⟨rfl, by decide, by decide⟩

/-- Claim C9 (amended): a non-blank raw value of a string variable always
    passes validation and is passed through to the typed argument mapping
    verbatim, without trimming; trimming is applied only to decide whether
    the field is blank. -/
theorem C9_amended_string_verbatim :
    ∀ (raw : String), jsTrim raw ≠ "" →
      parseValue raw "string" = .ok (some (.str raw)) ∧
      ∀ req : Bool, validateField raw "string" req = "" := by
  intro raw h
  constructor
  · unfold parseValue
    simp [h]
  · intro req
    exact validateField_string raw req h

/-- Witness for the amended C9. -/
theorem C9_amended_string_verbatim_witness :
    parseValue "hello" "string" = .ok (some (.str "hello")) :=
  (C9_amended_string_verbatim "hello" (by decide)).1

/-- Claim C10: in both grid variants onCreditsUpdate is invoked exactly when
    the calculate call returns successfully, and then with precisely the
    credits_remaining value of the response; on any failure (validation or a
    thrown or failed call) no credits event is emitted and the stored client
    record — updated only through the dashboard handleCreditsUpdate — is
    unchanged. -/
theorem C10_credits_update_frame (vars : List VariableSpec)
    (values : List (String × String))
    (server : List (String × JsValue) → Except String CalcResponse)
    (client : Option ClientInfo) :
    (∀ c : ℤ, (handleCalculateL vars values server).2 = some c ↔
        ∃ res, (handleCalculateL vars values server).1 = UiOutcome.success res ∧
          res.credits_remaining = c) ∧
    ((handleCalculateL vars values server).2 = none →
        afterCalculate client (handleCalculateL vars values server).2 = client) ∧
    (∀ (c : ℤ) (cl : ClientInfo), client = some cl →
        afterCalculate client (some c) = some { cl with credits := c }) ∧
    (∀ c : ℤ, (handleCalculateEG vars values server).2 = some c ↔
        ∃ res, (handleCalculateEG vars values server).1 = UiOutcome.success res ∧
          res.credits_remaining = c) ∧
    ((handleCalculateEG vars values server).2 = none →
        afterCalculate client (handleCalculateEG vars values server).2 = client) := by
  refine ⟨?_, ?_, ?_, ?_, ?_⟩
  · intro c
    rw [handleCalculateL_eq]
    by_cases hA : ((collectErrors vars values).any fun p => p.2 != "") = true
    · simp [hA]
    · rw [if_neg hA]
      rcases hB : buildVars vars values with e | typed
      · simp
      · rcases hS : server typed with e | res
        · simp [hS]
        · simp [hS]
  · intro h
    rw [h]
    rfl
  · intro c cl hcl
    rw [hcl]
    rfl
  · intro c
    unfold handleCalculateEG
    rcases hB : buildVarsEG vars values with e | typed
    · simp
    · rcases hS : server typed with e | res
      · simp [hS]
      · simp [hS]
  · intro h
    rw [h]
    rfl

/-- Witness for C10: a successful call emits exactly the returned credits,
    and a failing call leaves the stored client unchanged. -/
theorem C10_credits_update_frame_witness :
    (∃ res, (handleCalculateL [] [] okServer).1 = UiOutcome.success res ∧
        res.credits_remaining = 7) ∧
    afterCalculate (some ⟨1, "Acme", "active", 5⟩) (handleCalculateEG [] [] demoServer).2 =
      some ⟨1, "Acme", "active", 5⟩ :=
  ⟨((C10_credits_update_frame [] [] okServer none).1 7).mp rfl,
   (C10_credits_update_frame [] [] demoServer (some ⟨1, "Acme", "active", 5⟩)).2.2.2.2 rfl⟩

end Lexee
